import Mathlib

/-!
Verification of the coordinate / geometry routines of this repository:
the WCS transform chain of `wcs.py`, the bilinear least-squares fit of
`leastsquares2d.py` and the spherical polygon area of `sparea.py`.

Modelling conventions:
* Python floats are embedded as exact numbers (`ℚ` where every claim is
  decidable, `ℝ` where trigonometry is involved).  "To floating-point
  precision" is read as exact equality of the ideal computation.
* A numpy non-finite value (inf or NaN, as produced by a division by
  zero) is embedded as `none : Option _`; finite values are `some`.
* A Python exception is embedded through `Except PyErr`.
-/

open Real

namespace Wcs

/-- A FITS header, restricted to the keys the transforms of `wcs.py`
read.  Numeric entries live in an arbitrary field `K` (instantiated at
`ℚ` for the decidable claims and at `ℝ` for the trigonometric ones). -/
structure Hdr (K : Type) where
  crpix1 : K
  crpix2 : K
  cd1_1 : K
  cd1_2 : K
  cd2_1 : K
  cd2_2 : K
  crval1 : K
  crval2 : K
  ctype1 : String
  ctype2 : String

/-- The Python `str.split('-')` on a character list: maximal runs
between dashes, with empty runs kept (so `"RA---TAN"` gives
`["RA", "", "", "TAN"]`). -/
def splitOnDash : List Char → List (List Char)
  | [] => [[]]
  | c :: cs =>
    let rest := splitOnDash cs
    if c = '-' then [] :: rest else (c :: rest.headI) :: rest.tail

/-- `parse_ctype` of `wcs.py`: split the CTYPEi value on `-`, the
coordinate system is the first element, the projection the last. -/
def parse_ctype (ctype_str : String) : String × String :=
  let elements := (splitOnDash ctype_str.data).map String.mk
  (elements.headI, elements.getLastI)

variable {K : Type} [Field K] [DecidableEq K]

/-- `pix2proj` of `wcs.py` (G&C02 eq.3): pixel to projection-plane
coordinates.  The CUNIT branches of the source are no-ops. -/
def pix2proj (x y : K) (hdr : Hdr K) : K × K :=
  let xp := hdr.cd1_1 * (x - hdr.crpix1) + hdr.cd1_2 * (y - hdr.crpix2)
  let yp := hdr.cd2_1 * (x - hdr.crpix1) + hdr.cd2_2 * (y - hdr.crpix2)
  (xp, yp)

/-- The determinant `c` computed inside `proj2pix` of `wcs.py`. -/
def cdet (hdr : Hdr K) : K :=
  hdr.cd1_1 * hdr.cd2_2 - hdr.cd1_2 * hdr.cd2_1

/-- `proj2pix` of `wcs.py`: projection plane to pixel coordinates by the
explicit 2x2 inverse.  The source divides by `c` unconditionally; when
`c = 0` the (numpy) result is non-finite (inf or NaN), embedded as
`none` in both components. -/
def proj2pix (xp yp : K) (hdr : Hdr K) : Option K × Option K :=
  let c := cdet hdr
  if c = 0 then (none, none)
  else
    (some ((hdr.cd2_2 * xp - hdr.cd1_2 * yp) / c + hdr.crpix1),
     some ((-hdr.cd2_1 * xp + hdr.cd1_1 * yp) / c + hdr.crpix2))

end Wcs

namespace Lsq

/-- Result of `leastsquares2d` of `leastsquares2d.py`: either the scalar
`np.nan` sentinel (returned when no sample has `x != y`) or the tuple
`(a, b)`.  A component `none` embeds a non-finite float (NaN or inf)
arising from a division by zero inside the formula. -/
inductive LSResult where
  | nan : LSResult
  | pair (a b : Option ℚ) : LSResult
deriving DecidableEq

/-- Float division with the numpy semantics relevant here: a division by
zero, or any operation on an already non-finite operand, yields a
non-finite value (`none`). -/
def fdiv (a b : Option ℚ) : Option ℚ :=
  match a, b with
  | some a', some b' => if b' = 0 then none else some (a' / b')
  | _, _ => none

/-- Subtraction lifted to possibly non-finite floats. -/
def fsub (a b : Option ℚ) : Option ℚ :=
  match a, b with
  | some a', some b' => some (a' - b')
  | _, _ => none

/-- Multiplication lifted to possibly non-finite floats. -/
def fmul (a b : Option ℚ) : Option ℚ :=
  match a, b with
  | some a', some b' => some (a' * b')
  | _, _ => none

/-- The samples retained by `leastsquares2d`: `i = x != y` and all sums
run over `x[i]`, `y[i]`, `z[i]`. -/
def samples (x y z : List ℚ) : List (ℚ × ℚ × ℚ) :=
  (x.zip (y.zip z)).filter fun s => s.1 ≠ s.2.1

/-- `sx = np.sum(x[i]**2)`. -/
def sx (x y z : List ℚ) : ℚ := ((samples x y z).map fun s => s.1 ^ 2).sum

/-- `sxy = np.sum(x[i]*y[i])`. -/
def sxy (x y z : List ℚ) : ℚ := ((samples x y z).map fun s => s.1 * s.2.1).sum

/-- `sxz = np.sum(x[i]*z[i])`. -/
def sxz (x y z : List ℚ) : ℚ := ((samples x y z).map fun s => s.1 * s.2.2).sum

/-- `sy = np.sum(y[i]**2)`. -/
def sy (x y z : List ℚ) : ℚ := ((samples x y z).map fun s => s.2.1 ^ 2).sum

/-- `syz = np.sum(y[i]*z[i])`. -/
def syz (x y z : List ℚ) : ℚ := ((samples x y z).map fun s => s.2.1 * s.2.2).sum

/-- `leastsquares2d` of `leastsquares2d.py`.  Returns the `np.nan`
sentinel when no sample has `x != y`; otherwise computes
`a = (sxz - sxy*syz/sy) / (sx - sxy**2/sy)` and `b = (sxz - a*sx)/sxy`
with non-finiteness propagated as in numpy. -/
def leastsquares2d (x y z : List ℚ) : LSResult :=
  if (samples x y z).length = 0 then .nan
  else
    let a := fdiv (fsub (some (sxz x y z)) (fdiv (some (sxy x y z * syz x y z)) (some (sy x y z))))
                  (fsub (some (sx x y z)) (fdiv (some (sxy x y z ^ 2)) (some (sy x y z))))
    let b := fdiv (fsub (some (sxz x y z)) (fmul a (some (sx x y z)))) (some (sxy x y z))
    .pair a b

end Lsq

namespace Wcs

/-- Failure outcomes of the `wcs.py` conversions.  `typeError` embeds
the Python `TypeError` raised when the non-TAN branch assigns `None` and
the following arithmetic (`phi *= 180/np.pi`, `phi - phi_p`, ...) is
applied to it.  `unsupportedProjection` is the typed error demanded by
the specification, carrying the offending projection code; the source
never produces it. -/
inductive PyErr where
  | typeError : PyErr
  | unsupportedProjection (code : String) : PyErr
deriving DecidableEq

/-- `np.arctan2(y, x)`: the angle of the point `(x, y)`, in `(-π, π]`,
embedded as the argument of the complex number `x + y*i`.  Real numbers
have no signed zero, so `arctan2 0 0 = Complex.arg 0 = 0`, whereas IEEE
`atan2(+0.0, -0.0) = π`; every use of `arctan2` below is under
hypotheses that exclude the doubly-zero argument, and the IEEE
behaviour of the source's `np.arctan2(xp, -yp)` at the origin is
modelled by `arctan2neg`. -/
noncomputable def arctan2 (y x : ℝ) : ℝ := Complex.arg ⟨x, y⟩

/-- The source expression `np.arctan2(y, -x)` under IEEE semantics, for
`y` and `x` obtained from non-negative-zero floats: when `y = x = 0`
the literal negation turns the second argument into `-0.0` and
`atan2(+0.0, -0.0) = π`; away from that point signed zeros are
irrelevant and the value is the real `arctan2 y (-x)`. -/
noncomputable def arctan2neg (y x : ℝ) : ℝ :=
  if y = 0 ∧ x = 0 then π else arctan2 y (-x)

/-- `proj2natsph` of `wcs.py` (real-number semantics, faithful away from
`r = 0`; the IEEE behaviour at `r = 0` is modelled by `proj2natsphF`).
For a non-TAN projection the source assigns `phi, theta = None, None`
and the following `phi *= 180/np.pi` raises a `TypeError`. -/
noncomputable def proj2natsph (xp yp : ℝ) (hdr : Hdr ℝ) : Except PyErr (ℝ × ℝ) :=
  let xr := xp * (π / 180)
  let yr := yp * (π / 180)
  let projection1 := (parse_ctype hdr.ctype1).2
  let projection2 := (parse_ctype hdr.ctype2).2
  let projection := projection1
  if projection = "TAN" then
    let phi := arctan2 xr (-yr)
    let r := Real.sqrt (xr ^ 2 + yr ^ 2)
    let theta := Real.arctan (1 / r)
    .ok (phi * (180 / π), theta * (180 / π))
  else
    .error .typeError

/-- `natsph2proj` of `wcs.py`.  For a non-TAN projection the source
assigns `xp, yp = None, None` and `xp *= 180/np.pi` raises a
`TypeError`. -/
noncomputable def natsph2proj (phi theta : ℝ) (hdr : Hdr ℝ) : Except PyErr (ℝ × ℝ) :=
  let phir := phi * (π / 180)
  let thetar := theta * (π / 180)
  let projection1 := (parse_ctype hdr.ctype1).2
  let projection2 := (parse_ctype hdr.ctype2).2
  let projection := projection1
  if projection = "TAN" then
    let r := 1 / Real.tan thetar
    let xp := r * Real.sin phir
    let yp := -r * Real.cos phir
    .ok (xp * (180 / π), yp * (180 / π))
  else
    .error .typeError

/-- `natsph2celsph` of `wcs.py` (C&G02 eq.2).  For a non-TAN projection
the source assigns `lon_p, lat_p, phi_p = None, None, None` and the
following `phi - phi_p` raises a `TypeError`. -/
noncomputable def natsph2celsph (phi theta : ℝ) (hdr : Hdr ℝ) : Except PyErr (ℝ × ℝ) :=
  let phir := phi * (π / 180)
  let thetar := theta * (π / 180)
  let projection1 := (parse_ctype hdr.ctype1).2
  let projection2 := (parse_ctype hdr.ctype2).2
  let projection := projection1
  if projection = "TAN" then
    let lon_p := hdr.crval1 * (π / 180)
    let lat_p := hdr.crval2 * (π / 180)
    let phi_p := (180 : ℝ) * (π / 180)
    let dphi := phir - phi_p
    let lon := lon_p + arctan2 (-Real.cos thetar * Real.sin dphi)
        (Real.sin thetar * Real.cos lat_p - Real.cos thetar * Real.sin lat_p * Real.cos dphi)
    let lat := Real.arcsin
        (Real.sin thetar * Real.sin lat_p + Real.cos thetar * Real.cos lat_p * Real.cos dphi)
    .ok (lon * (180 / π), lat * (180 / π))
  else
    .error .typeError

/-- `celsph2natsph` of `wcs.py` (C&G02 eq.5).  For a non-TAN projection
the source assigns `lon_p, lat_p, phi_p = None, None, None` and the
following `lon - lon_p` raises a `TypeError`. -/
noncomputable def celsph2natsph (lon lat : ℝ) (hdr : Hdr ℝ) : Except PyErr (ℝ × ℝ) :=
  let lonr := lon * (π / 180)
  let latr := lat * (π / 180)
  let projection1 := (parse_ctype hdr.ctype1).2
  let projection2 := (parse_ctype hdr.ctype2).2
  let projection := projection1
  if projection = "TAN" then
    let lon_p := hdr.crval1 * (π / 180)
    let lat_p := hdr.crval2 * (π / 180)
    let phi_p := (180 : ℝ) * (π / 180)
    let dlon := lonr - lon_p
    let phi := phi_p + arctan2 (-Real.cos latr * Real.sin dlon)
        (Real.sin latr * Real.cos lat_p - Real.cos latr * Real.sin lat_p * Real.cos dlon)
    let theta := Real.arcsin
        (Real.sin latr * Real.sin lat_p + Real.cos latr * Real.cos lat_p * Real.cos dlon)
    .ok (phi * (180 / π), theta * (180 / π))
  else
    .error .typeError

/-- `pix2world` of `wcs.py`: `pix2proj` then `proj2natsph` then
`natsph2celsph`. -/
noncomputable def pix2world (x y : ℝ) (hdr : Hdr ℝ) : Except PyErr (ℝ × ℝ) :=
  let xpyp := pix2proj x y hdr
  (proj2natsph xpyp.1 xpyp.2 hdr).bind fun pt => natsph2celsph pt.1 pt.2 hdr

/-- `world2pix` of `wcs.py`: `celsph2natsph` then `natsph2proj` then
`proj2pix`. -/
noncomputable def world2pix (lon lat : ℝ) (hdr : Hdr ℝ) : Except PyErr (Option ℝ × Option ℝ) :=
  (celsph2natsph lon lat hdr).bind fun pt =>
    (natsph2proj pt.1 pt.2 hdr).bind fun uv =>
      .ok (proj2pix uv.1 uv.2 hdr)

/-- An IEEE-754-style value: a finite real, a signed infinity, or NaN.
Used to model the behaviour of `proj2natsph` at the projection-plane
origin, where numpy evaluates `1/r` at `r = 0`. -/
inductive FloatV where
  | fin (x : ℝ) : FloatV
  | posInf : FloatV
  | negInf : FloatV
  | nanV : FloatV

/-- IEEE division `1/r` for an argument `r ≥ 0` coming from `np.sqrt`:
numpy yields `+inf` at `r = 0` (with a runtime warning) and the finite
quotient otherwise. -/
noncomputable def fvInv (r : ℝ) : FloatV :=
  if r = 0 then .posInf else .fin (1 / r)

/-- IEEE `np.arctan`: maps `±inf` to `±π/2` and NaN to NaN. -/
noncomputable def fvArctan : FloatV → FloatV
  | .fin x => .fin (Real.arctan x)
  | .posInf => .fin (π / 2)
  | .negInf => .fin (-(π / 2))
  | .nanV => .nanV

/-- IEEE multiplication of a value by a finite constant `c`
(used for the `* 180/π` unit conversion, where `c > 0`). -/
noncomputable def fvMul (v : FloatV) (c : ℝ) : FloatV :=
  match v with
  | .fin x => .fin (x * c)
  | .posInf => if 0 < c then .posInf else if c < 0 then .negInf else .nanV
  | .negInf => if 0 < c then .negInf else if c < 0 then .posInf else .nanV
  | .nanV => .nanV

/-- The `1/r` intermediate of `proj2natsph` (`r` from C&G02 eq.15)
under IEEE semantics. -/
noncomputable def proj2natsph_invr (xp yp : ℝ) : FloatV :=
  fvInv (Real.sqrt ((xp * (π / 180)) ^ 2 + (yp * (π / 180)) ^ 2))

/-- `proj2natsph` of `wcs.py` under IEEE special-value semantics: the
same code path as `proj2natsph`, with the division `1/r` and the
`np.arctan` evaluated over `FloatV` so that the `r = 0` behaviour of
numpy (`1/0 = +inf`, `arctan(+inf) = π/2`) is represented, and with
`np.arctan2(xp, -yp)` evaluated through `arctan2neg` so that the
signed-zero value `atan2(+0.0, -0.0) = π` at the origin is
represented. -/
noncomputable def proj2natsphF (xp yp : ℝ) (hdr : Hdr ℝ) : Except PyErr (FloatV × FloatV) :=
  let xr := xp * (π / 180)
  let yr := yp * (π / 180)
  let projection := (parse_ctype hdr.ctype1).2
  if projection = "TAN" then
    let phi := FloatV.fin (arctan2neg xr yr)
    let theta := fvArctan (proj2natsph_invr xp yp)
    .ok (fvMul phi (180 / π), fvMul theta (180 / π))
  else
    .error .typeError

end Wcs

namespace Sparea

/-- Modelled from the spec: `gcdist`, the great-circle segment length
between two points, is called by `sparea.py` but its module is not among
the source files.  The spec (§4.6) says each edge's "great-circle
segment length" is computed; this is the standard central-angle
formula. -/
noncomputable def gcdist (lon1 lat1 lon2 lat2 : ℝ) : ℝ :=
  Real.arccos
    (Real.sin lat1 * Real.sin lat2 + Real.cos lat1 * Real.cos lat2 * Real.cos (lon2 - lon1))

/-- The spherical excess `E` contributed by one edge of the polygon in
`sparea` of `sparea.py`: the great-circle length `l`, the semiperimeter
`s` of the triangle closed through the pole, the two clamped half-angle
terms, and L'Huilier's formula.  `p` and `q` are the edge's endpoints as
(longitude, latitude) pairs in radians. -/
noncomputable def edgeE (p q : ℝ × ℝ) : ℝ :=
  let l := gcdist p.1 p.2 q.1 q.2
  let s := (l + π + p.2 + q.2) / 2
  let term1 := max ((s - (π / 2 + p.2)) / 2) 0
  let term2 := max ((s - (π / 2 + q.2)) / 2) 0
  let result := Real.tan (s / 2) * Real.tan ((s - l) / 2) * Real.tan term1 * Real.tan term2
  4 * Real.arctan (Real.sqrt result)

/-- One edge's signed contribution `sign * E` in `sparea`:
`sign = 2*(lon[i+1] < lon[i]) - 1`. -/
noncomputable def edgeTerm (p q : ℝ × ℝ) : ℝ :=
  (if q.1 < p.1 then (1 : ℝ) else -1) * edgeE p q

/-- Sum of `f` over the consecutive pairs of a list (the vectorized
`lon[:-1], lon[1:]` pairing of `sparea.py`). -/
noncomputable def pairSum (f : ℝ × ℝ → ℝ × ℝ → ℝ) : List (ℝ × ℝ) → ℝ
  | a :: b :: t => f a b + pairSum f (b :: t)
  | _ => 0

/-- The closure step of `sparea`: if the last vertex differs from the
first (in longitude or latitude), append the first vertex. -/
noncomputable def closePts (pts : List (ℝ × ℝ)) : List (ℝ × ℝ) :=
  if pts.getLastI = pts.headI then pts else pts ++ [pts.headI]

/-- `sparea` of `sparea.py`: close the polygon, convert to radians when
`units == 'deg'`, sum the signed per-edge excesses, scale by `R**2`
(and back to square degrees), and flip the sign if negative. -/
noncomputable def sparea (lon lat : List ℝ) (R : ℝ) (units : String) : ℝ :=
  let pts0 := lon.zip lat
  let pts1 := closePts pts0
  let pts := if units = "deg" then pts1.map (fun p => (p.1 * (π / 180), p.2 * (π / 180))) else pts1
  let A := pairSum edgeTerm pts * R ^ 2
  let A2 := if units = "deg" then A * (180 / π) ^ 2 else A
  if A2 < 0 then -A2 else A2

end Sparea

namespace Wcs

/-- A sample TAN header: identity CD matrix, reference pixel `(0, 0)`,
reference point `(0°, 0°)`. -/
noncomputable def hdrTan : Hdr ℝ :=
  ⟨0, 0, 1, 0, 0, 1, 0, 0, "RA---TAN", "DEC--TAN"⟩

/-- A TAN header whose CD matrix is singular. -/
noncomputable def hdrSingular : Hdr ℝ :=
  ⟨0, 0, 1, 1, 1, 1, 0, 0, "RA---TAN", "DEC--TAN"⟩

/-- A header requesting the unsupported SIN projection on both axes. -/
noncomputable def hdrSin : Hdr ℝ :=
  ⟨0, 0, 1, 0, 0, 1, 0, 0, "RA---SIN", "DEC--SIN"⟩

/-- A header whose two axes name different projection codes. -/
noncomputable def hdrMixed : Hdr ℝ :=
  ⟨0, 0, 1, 0, 0, 1, 0, 0, "RA---TAN", "DEC--SIN"⟩

end Wcs

namespace Lsq

lemma fdiv_zero_right (a : Option ℚ) : fdiv a (some 0) = none := by
  cases a <;> simp [fdiv]

lemma fsub_none_right (a : Option ℚ) : fsub a none = none := by
  cases a <;> rfl

lemma fmul_none_left (b : Option ℚ) : fmul none b = none := rfl

lemma fdiv_none_left (b : Option ℚ) : fdiv none b = none := rfl

end Lsq

/-- C10: for every header (any CD matrix, any reference pixel values),
`pix2proj` maps the reference pixel `(CRPIX1, CRPIX2)` to the
projection-plane origin `(0, 0)` exactly. -/
theorem pix2proj_crpix_eq_origin (hdr : Wcs.Hdr ℝ) :
    Wcs.pix2proj hdr.crpix1 hdr.crpix2 hdr = (0, 0) := by
  simp [Wcs.pix2proj]

/-- C2: for every header with non-zero determinant
`c = CD1_1*CD2_2 - CD1_2*CD2_1` and every pixel `(x, y)`, the linear
stage round-trips exactly: `proj2pix (pix2proj (x, y, h), h) = (x, y)`. -/
theorem proj2pix_pix2proj_roundtrip (hdr : Wcs.Hdr ℝ) (x y : ℝ)
    (hc : Wcs.cdet hdr ≠ 0) :
    Wcs.proj2pix (Wcs.pix2proj x y hdr).1 (Wcs.pix2proj x y hdr).2 hdr =
      (some x, some y) := by
  have hc' : hdr.cd1_1 * hdr.cd2_2 - hdr.cd1_2 * hdr.cd2_1 ≠ 0 := hc
  simp only [Wcs.pix2proj, Wcs.proj2pix, Wcs.cdet]
  rw [if_neg hc']
  simp only [Prod.mk.injEq, Option.some.injEq]
  constructor <;> field_simp <;> ring

/-- Witness for C2 at a concrete header (CD = [[2,1],[1,1]], determinant
1) and pixel (5, 7). -/
theorem proj2pix_pix2proj_roundtrip_witness :
    Wcs.proj2pix
        (Wcs.pix2proj 5 7 (⟨1, 2, 2, 1, 1, 1, 0, 0, "RA---TAN", "DEC--TAN"⟩ : Wcs.Hdr ℝ)).1
        (Wcs.pix2proj 5 7 (⟨1, 2, 2, 1, 1, 1, 0, 0, "RA---TAN", "DEC--TAN"⟩ : Wcs.Hdr ℝ)).2
        (⟨1, 2, 2, 1, 1, 1, 0, 0, "RA---TAN", "DEC--TAN"⟩ : Wcs.Hdr ℝ) = (some 5, some 7) :=
  proj2pix_pix2proj_roundtrip _ 5 7 (by norm_num [Wcs.cdet])

/-- C3 counterexample: at a header with zero determinant, `proj2pix`
does not fail with any detected error: it divides by zero and returns
the non-finite (inf/NaN) pair, exactly what the claim says it must not
do.  No `SingularTransformError` exists anywhere in this code. -/
theorem proj2pix_singular_counterexample :
    Wcs.proj2pix (1 : ℝ) 1 Wcs.hdrSingular = (none, none) := by
  norm_num [Wcs.proj2pix, Wcs.cdet, Wcs.hdrSingular]

/-- C3 amended: for every header whose determinant `c` is zero,
`proj2pix` divides by zero and produces non-finite (inf/NaN) results in
both components; it raises no `SingularTransformError`. -/
theorem proj2pix_singular_nonfinite (hdr : Wcs.Hdr ℝ) (u v : ℝ)
    (hc : Wcs.cdet hdr = 0) :
    Wcs.proj2pix u v hdr = (none, none) := by
  simp [Wcs.proj2pix, hc]

/-- Witness for the amended C3 at a concrete singular header. -/
theorem proj2pix_singular_nonfinite_witness :
    Wcs.proj2pix (2 : ℝ) 3 Wcs.hdrSingular = (none, none) :=
  proj2pix_singular_nonfinite Wcs.hdrSingular 2 3
    (by norm_num [Wcs.cdet, Wcs.hdrSingular])

/-- C4 counterexample: on the SIN header, `proj2natsph` fails with the
untyped `TypeError` that arises from multiplying `None` by a float, not
with an `UnsupportedProjectionError` naming the requested code. -/
theorem proj2natsph_sin_counterexample :
    Wcs.proj2natsph 1 1 Wcs.hdrSin = .error .typeError ∧
    Wcs.proj2natsph 1 1 Wcs.hdrSin ≠
      .error (.unsupportedProjection "SIN") := by
  have h : ¬((Wcs.parse_ctype "RA---SIN").2 = "TAN") := by decide
  constructor
  · simp [Wcs.proj2natsph, Wcs.hdrSin, h]
  · simp [Wcs.proj2natsph, Wcs.hdrSin, h]

/-- C4 amended: for every header whose CTYPE1 projection code is not
TAN, `proj2natsph` and `natsph2proj` fail with the untyped Python
`TypeError` produced by the `None * float` arithmetic; they never
return placeholder coordinates, and no `UnsupportedProjectionError`
naming the code is raised. -/
theorem proj2natsph_natsph2proj_non_tan (u v p t : ℝ) (hdr : Wcs.Hdr ℝ)
    (h : (Wcs.parse_ctype hdr.ctype1).2 ≠ "TAN") :
    Wcs.proj2natsph u v hdr = .error .typeError ∧
    Wcs.natsph2proj p t hdr = .error .typeError := by
  constructor
  · simp [Wcs.proj2natsph, h]
  · simp [Wcs.natsph2proj, h]

/-- Witness for the amended C4 at the concrete SIN header. -/
theorem proj2natsph_natsph2proj_non_tan_witness :
    Wcs.proj2natsph 1 2 Wcs.hdrSin = .error .typeError ∧
    Wcs.natsph2proj 3 4 Wcs.hdrSin = .error .typeError :=
  proj2natsph_natsph2proj_non_tan 1 2 3 4 Wcs.hdrSin
    (by show ¬((Wcs.parse_ctype "RA---SIN").2 = "TAN"); decide)

/-- C7: on samples generated exactly by the model with `x = [1,2,3]`,
`y = [4,5,6]`, `z = 2*x - 1*y = [-2,-1,0]`, the fit returns exactly the
generating coefficients `(a, b) = (2, -1)` (in particular within 1e-9),
via the stated normal equations. -/
theorem leastsquares2d_exact_recovery :
    Lsq.leastsquares2d [1, 2, 3] [4, 5, 6] [-2, -1, 0] =
      .pair (some 2) (some (-1)) := by
  norm_num [Lsq.leastsquares2d, Lsq.samples, Lsq.sx, Lsq.sxy, Lsq.sxz,
    Lsq.sy, Lsq.syz, Lsq.fdiv, Lsq.fsub, Lsq.fmul]

/-- C6 counterexample: for `x = [1]`, `y = [0]`, `z = [1]` the filtered
set is nonempty and `sy = 0`, so the claimed behaviour is the "no
solution" sentinel; the code instead divides by zero and returns a
tuple whose components are non-finite floats — a pair, not the
sentinel. -/
theorem leastsquares2d_sentinel_counterexample :
    Lsq.samples [1] [0] [1] ≠ [] ∧ Lsq.sy [1] [0] [1] = 0 ∧
    Lsq.leastsquares2d [1] [0] [1] ≠ Lsq.LSResult.nan := by
  refine ⟨?_, ?_, ?_⟩
  · norm_num [Lsq.samples]
  · norm_num [Lsq.sy, Lsq.samples]
  · have h : Lsq.leastsquares2d [1] [0] [1] = .pair none none := by
      norm_num [Lsq.leastsquares2d, Lsq.samples, Lsq.sx, Lsq.sxy, Lsq.sxz,
        Lsq.sy, Lsq.syz, Lsq.fdiv, Lsq.fsub, Lsq.fmul]
    rw [h]
    intro hcontra
    exact Lsq.LSResult.noConfusion hcontra

/-- C6 amended: the `np.nan` sentinel is returned exactly when every
sample has `x == y` (empty filtered set); when the filtered set is
nonempty and `sy = 0` or `sxy = 0` would cause a division by zero, the
function still returns a tuple, whose second component (both, when
`sy = 0`) is a non-finite float rather than a number. -/
theorem leastsquares2d_degenerate_cases (x y z : List ℚ) :
    (Lsq.leastsquares2d x y z = .nan ↔ Lsq.samples x y z = []) ∧
    (Lsq.samples x y z ≠ [] → Lsq.sy x y z = 0 →
      Lsq.leastsquares2d x y z = .pair none none) ∧
    (Lsq.samples x y z ≠ [] → Lsq.sxy x y z = 0 →
      ∃ a, Lsq.leastsquares2d x y z = .pair a none) := by
  by_cases hs : Lsq.samples x y z = []
  · refine ⟨?_, fun hne => absurd hs hne, fun hne => absurd hs hne⟩
    simp [Lsq.leastsquares2d, hs]
  · have hlen : ¬((Lsq.samples x y z).length = 0) := by
      simpa [List.length_eq_zero] using hs
    refine ⟨⟨?_, fun hx => absurd hx hs⟩, ?_, ?_⟩
    · intro hcontra
      simp only [Lsq.leastsquares2d, if_neg hlen] at hcontra
      exact Lsq.LSResult.noConfusion hcontra
    · intro _ hsy
      simp [Lsq.leastsquares2d, hlen, hsy, Lsq.fdiv_zero_right,
        Lsq.fsub_none_right, Lsq.fmul_none_left, Lsq.fdiv_none_left]
    · intro _ hsxy
      simp only [Lsq.leastsquares2d, if_neg hlen, hsxy, Lsq.fdiv_zero_right]
      exact ⟨_, rfl⟩

/-- Witness for the amended C6: the sentinel on all-equal samples, the
doubly-NaN pair when `sy = 0`, and a pair with NaN second component when
`sxy = 0` with `sy ≠ 0`. -/
theorem leastsquares2d_degenerate_cases_witness :
    Lsq.leastsquares2d [1, 2] [1, 2] [0, 0] = .nan ∧
    Lsq.leastsquares2d [1] [0] [1] = .pair none none ∧
    ∃ a, Lsq.leastsquares2d [0, 1] [1, 0] [0, 0] = .pair a none :=
  ⟨(leastsquares2d_degenerate_cases [1, 2] [1, 2] [0, 0]).1.mpr
      (by norm_num [Lsq.samples]),
   (leastsquares2d_degenerate_cases [1] [0] [1]).2.1
      (by norm_num [Lsq.samples]) (by norm_num [Lsq.sy, Lsq.samples]),
   (leastsquares2d_degenerate_cases [0, 1] [1, 0] [0, 0]).2.2
      (by simp [Lsq.samples]) (by norm_num [Lsq.sxy, Lsq.samples])⟩

/-- C9 counterexample: on a header whose axes name different projection
codes (`RA---TAN` / `DEC--SIN`), all four CTYPE-consulting conversions
proceed (returning a value) instead of reporting an error. -/
theorem ctype_mismatch_counterexample :
    (Wcs.proj2natsph 1 1 Wcs.hdrMixed).isOk = true ∧
    (Wcs.natsph2proj 1 1 Wcs.hdrMixed).isOk = true ∧
    (Wcs.natsph2celsph 1 1 Wcs.hdrMixed).isOk = true ∧
    (Wcs.celsph2natsph 1 1 Wcs.hdrMixed).isOk = true := by
  have h : (Wcs.parse_ctype "RA---TAN").2 = "TAN" := by decide
  refine ⟨?_, ?_, ?_, ?_⟩ <;>
    simp [Wcs.proj2natsph, Wcs.natsph2proj, Wcs.natsph2celsph,
      Wcs.celsph2natsph, Wcs.hdrMixed, h, Except.isOk, Except.toBool]

/-- C9 amended: the four CTYPE-consulting conversions never consult
CTYPE2 at all — their result is unchanged under any replacement of
CTYPE2, i.e. they silently proceed with axis 1's projection code
alone. -/
theorem ctype2_never_consulted (u v : ℝ) (hdr : Wcs.Hdr ℝ) (s : String) :
    Wcs.proj2natsph u v { hdr with ctype2 := s } = Wcs.proj2natsph u v hdr ∧
    Wcs.natsph2proj u v { hdr with ctype2 := s } = Wcs.natsph2proj u v hdr ∧
    Wcs.natsph2celsph u v { hdr with ctype2 := s } = Wcs.natsph2celsph u v hdr ∧
    Wcs.celsph2natsph u v { hdr with ctype2 := s } = Wcs.celsph2natsph u v hdr :=
  ⟨rfl, rfl, rfl, rfl⟩

/-- C5 counterexample: at the projection-plane origin the code
evaluates `1/r` at `r = 0`, producing a positive infinity (numpy
semantics) — the claim asserts no infinity is produced there. -/
theorem proj2natsph_invr_origin_counterexample :
    Wcs.proj2natsph_invr 0 0 = Wcs.FloatV.posInf := by
  norm_num [Wcs.proj2natsph_invr, Wcs.fvInv]

/-- C5 amended: `proj2natsph` has no special case for `r = 0`.  At
`(u, v) = (0, 0)` it evaluates `atan(1/r)` at `r = 0`: the division
produces `+inf` and `theta = 90` is only obtained as
`arctan(+inf) = π/2`, while `phi = atan2(+0.0, -0.0) = π`, i.e.
180 degrees; the returned pair is `(180, 90)` but an infinity is
produced on the way. -/
theorem proj2natsph_origin (hdr : Wcs.Hdr ℝ)
    (h : (Wcs.parse_ctype hdr.ctype1).2 = "TAN") :
    Wcs.proj2natsphF 0 0 hdr = .ok (.fin 180, .fin 90) ∧
    Wcs.proj2natsph_invr 0 0 = Wcs.FloatV.posInf := by
  constructor
  · have hinv : Wcs.proj2natsph_invr 0 0 = Wcs.FloatV.posInf := by
      norm_num [Wcs.proj2natsph_invr, Wcs.fvInv]
    have harg : Wcs.arctan2neg ((0 : ℝ) * (π / 180)) ((0 : ℝ) * (π / 180)) = π := by
      rw [Wcs.arctan2neg, if_pos (by norm_num)]
    simp only [Wcs.proj2natsphF, h, if_true, hinv, harg, Wcs.fvArctan, Wcs.fvMul]
    simp only [Except.ok.injEq, Prod.mk.injEq, Wcs.FloatV.fin.injEq]
    constructor
    · field_simp
    · field_simp
      ring
  · norm_num [Wcs.proj2natsph_invr, Wcs.fvInv]

/-- Witness for the amended C5 at the concrete TAN header. -/
theorem proj2natsph_origin_witness :
    Wcs.proj2natsphF 0 0 Wcs.hdrTan = .ok (.fin 180, .fin 90) ∧
    Wcs.proj2natsph_invr 0 0 = Wcs.FloatV.posInf :=
  proj2natsph_origin Wcs.hdrTan
    (by show (Wcs.parse_ctype "RA---TAN").2 = "TAN"; decide)

lemma zip_reverse {α β : Type} (l : List α) : ∀ (m : List β), l.length = m.length →
    l.reverse.zip m.reverse = (l.zip m).reverse := by
  induction l with
  | nil => intro m h; simp
  | cons a t ih =>
    intro m h
    cases m with
    | nil => simp at h
    | cons b s =>
      simp only [List.length_cons, Nat.add_right_cancel_iff] at h
      simp only [List.reverse_cons, List.zip_cons_cons]
      rw [List.zip_append (by simp [h]), ih s h]
      simp

section ListHelpers

variable {α β : Type} [Inhabited α] [Inhabited β]

lemma headI_eq_head_iget (l : List α) : l.headI = l.head?.iget := by
  cases l <;> rfl

lemma headI_reverse (l : List α) : l.reverse.headI = l.getLastI := by
  rw [headI_eq_head_iget, List.head?_reverse, List.getLastI_eq_getLast?]

lemma getLastI_reverse (l : List α) : l.reverse.getLastI = l.headI := by
  rw [List.getLastI_eq_getLast?, List.getLast?_reverse, headI_eq_head_iget]

lemma getLastI_cons_cons (a b : α) (t : List α) :
    (a :: b :: t).getLastI = (b :: t).getLastI := by
  rw [List.getLastI_eq_getLast?, List.getLastI_eq_getLast?, List.getLast?_cons_cons]

lemma headI_mem : ∀ (l : List α), l ≠ [] → l.headI ∈ l
  | [], h => absurd rfl h
  | _ :: _, _ => List.mem_cons_self _ _

lemma getLastI_mem : ∀ (l : List α), l ≠ [] → l.getLastI ∈ l
  | [], h => absurd rfl h
  | [a], _ => by simp [List.getLastI]
  | a :: b :: t, _ => by
    rw [getLastI_cons_cons]
    exact List.mem_cons_of_mem a (getLastI_mem (b :: t) (by simp))

lemma headI_map (g : α → β) : ∀ (l : List α), l ≠ [] → (l.map g).headI = g l.headI
  | [], h => absurd rfl h
  | _ :: _, _ => rfl

lemma getLastI_map (g : α → β) : ∀ (l : List α), l ≠ [] → (l.map g).getLastI = g l.getLastI
  | [], h => absurd rfl h
  | [a], _ => rfl
  | a :: b :: t, _ => by
    simp only [List.map_cons]
    rw [getLastI_cons_cons, getLastI_cons_cons, ← List.map_cons g b t]
    exact getLastI_map g (b :: t) (by simp)

end ListHelpers

namespace Sparea

lemma gcdist_symm (lon1 lat1 lon2 lat2 : ℝ) :
    gcdist lon1 lat1 lon2 lat2 = gcdist lon2 lat2 lon1 lat1 := by
  simp only [gcdist]
  rw [show lon1 - lon2 = -(lon2 - lon1) from by ring, Real.cos_neg]
  congr 1
  ring

lemma edgeE_symm (p q : ℝ × ℝ) : edgeE p q = edgeE q p := by
  simp only [edgeE]
  rw [gcdist_symm q.1 q.2 p.1 p.2]
  have harg : ∀ X Y : ℝ, X = Y →
      4 * Real.arctan (Real.sqrt X) = 4 * Real.arctan (Real.sqrt Y) := by
    intro X Y h
    rw [h]
  apply harg
  rw [show gcdist p.1 p.2 q.1 q.2 + π + q.2 + p.2 =
      gcdist p.1 p.2 q.1 q.2 + π + p.2 + q.2 from by ring]
  ring

lemma edgeE_same_lon (p q : ℝ × ℝ) (hlon : p.1 = q.1)
    (hp : |p.2| ≤ π / 2) (hq : |q.2| ≤ π / 2) : edgeE p q = 0 := by
  obtain ⟨hp1, hp2⟩ := abs_le.mp hp
  obtain ⟨hq1, hq2⟩ := abs_le.mp hq
  simp only [edgeE, gcdist, hlon, sub_self, Real.cos_zero, mul_one]
  rw [show Real.sin p.2 * Real.sin q.2 + Real.cos p.2 * Real.cos q.2 =
      Real.cos (p.2 - q.2) from by rw [Real.cos_sub]; ring]
  rcases le_total q.2 p.2 with hle | hle
  · rw [Real.arccos_cos (by linarith) (by linarith)]
    rw [show (p.2 - q.2 + π + p.2 + q.2) / 2 = p.2 + π / 2 from by ring]
    rw [show max ((p.2 + π / 2 - (π / 2 + p.2)) / 2) 0 = 0 from by
      rw [show (p.2 + π / 2 - (π / 2 + p.2)) / 2 = 0 from by ring]
      exact max_self 0]
    rw [Real.tan_zero, mul_zero, zero_mul, Real.sqrt_zero, Real.arctan_zero, mul_zero]
  · rw [show Real.cos (p.2 - q.2) = Real.cos (q.2 - p.2) from by
      rw [show p.2 - q.2 = -(q.2 - p.2) from by ring, Real.cos_neg]]
    rw [Real.arccos_cos (by linarith) (by linarith)]
    rw [show (q.2 - p.2 + π + p.2 + q.2) / 2 = q.2 + π / 2 from by ring]
    rw [show max ((q.2 + π / 2 - (π / 2 + q.2)) / 2) 0 = 0 from by
      rw [show (q.2 + π / 2 - (π / 2 + q.2)) / 2 = 0 from by ring]
      exact max_self 0]
    rw [Real.tan_zero, mul_zero, Real.sqrt_zero, Real.arctan_zero, mul_zero]

lemma edgeTerm_antisymm (p q : ℝ × ℝ) (hp : |p.2| ≤ π / 2) (hq : |q.2| ≤ π / 2) :
    edgeTerm q p = -edgeTerm p q := by
  simp only [edgeTerm]
  rcases lt_trichotomy p.1 q.1 with h | h | h
  · rw [if_pos h, if_neg (asymm h), edgeE_symm q p]
    ring
  · rw [if_neg (by rw [h]; exact lt_irrefl _), if_neg (by rw [h]; exact lt_irrefl _)]
    rw [edgeE_same_lon p q h hp hq, edgeE_same_lon q p h.symm hq hp]
    ring
  · rw [if_neg (asymm h), if_pos h]
    rw [edgeE_symm q p]
    ring

lemma pairSum_append_getLastI (f : ℝ × ℝ → ℝ × ℝ → ℝ) (x : ℝ × ℝ) :
    ∀ (l : List (ℝ × ℝ)), l ≠ [] → pairSum f (l ++ [x]) = pairSum f l + f l.getLastI x
  | [], h => absurd rfl h
  | [a], _ => by simp [pairSum, List.getLastI]
  | a :: b :: t, _ => by
    have ih := pairSum_append_getLastI f x (b :: t) (by simp)
    simp only [List.cons_append] at ih ⊢
    rw [show pairSum f (a :: b :: (t ++ [x])) =
        f a b + pairSum f (b :: (t ++ [x])) from rfl]
    rw [ih, getLastI_cons_cons]
    rw [show pairSum f (a :: b :: t) = f a b + pairSum f (b :: t) from rfl]
    ring

lemma pairSum_reverse (f : ℝ × ℝ → ℝ × ℝ → ℝ) :
    ∀ (l : List (ℝ × ℝ)), pairSum f l.reverse = pairSum (fun a b => f b a) l
  | [] => by simp [pairSum]
  | [a] => by simp [pairSum]
  | a :: b :: t => by
    have ih := pairSum_reverse f (b :: t)
    rw [show (a :: b :: t).reverse = (b :: t).reverse ++ [a] from by simp]
    rw [pairSum_append_getLastI f a ((b :: t).reverse) (by simp), ih]
    rw [getLastI_reverse]
    rw [show (b :: t).headI = b from rfl]
    rw [show pairSum (fun a b => f b a) (a :: b :: t) =
        f b a + pairSum (fun a b => f b a) (b :: t) from rfl]
    ring

lemma pairSum_flip_neg :
    ∀ (l : List (ℝ × ℝ)), (∀ p ∈ l, |p.2| ≤ π / 2) →
      pairSum (fun a b => edgeTerm b a) l = -pairSum edgeTerm l
  | [], _ => by simp [pairSum]
  | [a], _ => by simp [pairSum]
  | a :: b :: t, h => by
    have ih := pairSum_flip_neg (b :: t) fun p hp => h p (List.mem_cons_of_mem a hp)
    rw [show pairSum (fun a b => edgeTerm b a) (a :: b :: t) =
        edgeTerm b a + pairSum (fun a b => edgeTerm b a) (b :: t) from rfl]
    rw [show pairSum edgeTerm (a :: b :: t) =
        edgeTerm a b + pairSum edgeTerm (b :: t) from rfl]
    rw [ih, edgeTerm_antisymm a b (h a (by simp)) (h b (by simp))]
    ring

/-- Reversing the raw vertex list negates the signed sum of per-edge
excesses, provided every (converted) latitude is within `[-π/2, π/2]`.
`g` is the unit-conversion map applied after the closure step. -/
lemma pairSum_closePts_reverse (m : List (ℝ × ℝ)) (hm : m ≠ [])
    (g : ℝ × ℝ → ℝ × ℝ) (hg : ∀ p ∈ m, |(g p).2| ≤ π / 2) :
    pairSum edgeTerm ((closePts m.reverse).map g) =
      -pairSum edgeTerm ((closePts m).map g) := by
  have hmemmap : ∀ p ∈ m.map g, |p.2| ≤ π / 2 := by
    intro p hp
    obtain ⟨q, hq, rfl⟩ := List.mem_map.mp hp
    exact hg q hq
  have hmapne : m.map g ≠ [] := by
    simpa using hm
  by_cases hc : m.getLastI = m.headI
  · rw [closePts, if_pos (by rw [getLastI_reverse, headI_reverse, hc])]
    rw [closePts, if_pos hc]
    rw [List.map_reverse, pairSum_reverse]
    exact pairSum_flip_neg (m.map g) hmemmap
  · rw [closePts, if_neg (by rw [getLastI_reverse, headI_reverse]; exact fun hx => hc hx.symm)]
    rw [closePts, if_neg hc]
    rw [headI_reverse m]
    rw [List.map_append, List.map_append, List.map_reverse]
    rw [show List.map g [m.getLastI] = [g m.getLastI] from rfl,
        show List.map g [m.headI] = [g m.headI] from rfl]
    rw [pairSum_append_getLastI edgeTerm (g m.getLastI) ((m.map g).reverse)
      (by simpa using hmapne)]
    rw [pairSum_append_getLastI edgeTerm (g m.headI) (m.map g) hmapne]
    rw [pairSum_reverse, pairSum_flip_neg (m.map g) hmemmap]
    rw [getLastI_reverse]
    rw [headI_map g m hm, getLastI_map g m hm]
    rw [edgeTerm_antisymm (g m.headI) (g m.getLastI)
      (hg _ (headI_mem m hm)) (hg _ (getLastI_mem m hm))]
    ring

lemma ite_neg_eq_abs (x : ℝ) : (if x < 0 then -x else x) = |x| := by
  rcases lt_or_le x 0 with h | h
  · rw [if_pos h, abs_of_neg h]
  · rw [if_neg (not_lt.mpr h), abs_of_nonneg h]

end Sparea

/-- C8: for every valid polygon (at least 3 vertices, latitudes within
the valid range for the requested units), the spherical polygon area is
unchanged by reversing the vertex order, and is non-negative. -/
theorem sparea_reverse_invariant (lon lat : List ℝ) (R : ℝ) (units : String)
    (hlen : lon.length = lat.length) (hlen3 : 3 ≤ lon.length)
    (hlat : ∀ a ∈ lat, |a| ≤ if units = "deg" then 90 else π / 2) :
    Sparea.sparea lon.reverse lat.reverse R units = Sparea.sparea lon lat R units ∧
    0 ≤ Sparea.sparea lon lat R units := by
  have hnonneg : ∀ (lo la : List ℝ), 0 ≤ Sparea.sparea lo la R units := by
    intro lo la
    simp only [Sparea.sparea, Sparea.ite_neg_eq_abs]
    exact abs_nonneg _
  refine ⟨?_, hnonneg lon lat⟩
  have hzip : lon.reverse.zip lat.reverse = (lon.zip lat).reverse :=
    zip_reverse lon lat hlen
  have hm : lon.zip lat ≠ [] := by
    have hlz : (lon.zip lat).length = min lon.length lat.length := List.length_zip lon lat
    intro hx
    rw [hx] at hlz
    simp only [List.length_nil] at hlz
    omega
  have hmemlat : ∀ p ∈ lon.zip lat, p.2 ∈ lat := fun p hp =>
    (List.of_mem_zip hp).2
  by_cases hu : units = "deg"
  · have hg : ∀ p ∈ lon.zip lat, |(p.1 * (π / 180), p.2 * (π / 180)).2| ≤ π / 2 := by
      intro p hp
      have hb : |p.2| ≤ 90 := by
        have := hlat p.2 (hmemlat p hp)
        rwa [if_pos hu] at this
      have hpi : (0 : ℝ) < π := Real.pi_pos
      calc |p.2 * (π / 180)| = |p.2| * (π / 180) := by
            rw [abs_mul, abs_of_pos (show (0 : ℝ) < π / 180 from by positivity)]
        _ ≤ 90 * (π / 180) := by
            apply mul_le_mul_of_nonneg_right hb (by positivity)
        _ = π / 2 := by ring
    have hkey := Sparea.pairSum_closePts_reverse (lon.zip lat) hm
      (fun p => (p.1 * (π / 180), p.2 * (π / 180))) hg
    simp only [Sparea.sparea, Sparea.ite_neg_eq_abs, hu, if_pos, hzip, if_true]
    rw [hkey]
    rw [show -Sparea.pairSum Sparea.edgeTerm
        ((Sparea.closePts (lon.zip lat)).map fun p => (p.1 * (π / 180), p.2 * (π / 180))) *
          R ^ 2 * (180 / π) ^ 2 =
        -(Sparea.pairSum Sparea.edgeTerm
        ((Sparea.closePts (lon.zip lat)).map fun p => (p.1 * (π / 180), p.2 * (π / 180))) *
          R ^ 2 * (180 / π) ^ 2) from by ring]
    rw [abs_neg]
  · have hg : ∀ p ∈ lon.zip lat, |(id p).2| ≤ π / 2 := by
      intro p hp
      have := hlat p.2 (hmemlat p hp)
      rwa [if_neg hu] at this
    have hkey := Sparea.pairSum_closePts_reverse (lon.zip lat) hm id hg
    simp only [List.map_id] at hkey
    simp only [Sparea.sparea, Sparea.ite_neg_eq_abs, hu, if_false, hzip]
    rw [hkey]
    rw [show -Sparea.pairSum Sparea.edgeTerm (Sparea.closePts (lon.zip lat)) * R ^ 2 =
        -(Sparea.pairSum Sparea.edgeTerm (Sparea.closePts (lon.zip lat)) * R ^ 2) from by ring]
    rw [abs_neg]

/-- Witness for C8 on a concrete degree-unit triangle. -/
theorem sparea_reverse_invariant_witness :
    Sparea.sparea [0, 10, 10].reverse [0, 0, 10].reverse 1 "deg" =
      Sparea.sparea [0, 10, 10] [0, 0, 10] 1 "deg" ∧
    0 ≤ Sparea.sparea [0, 10, 10] [0, 0, 10] 1 "deg" :=
  sparea_reverse_invariant [0, 10, 10] [0, 0, 10] 1 "deg" (by simp) (by simp)
    (by
      intro a ha
      rw [if_pos rfl]
      simp only [List.mem_cons, List.mem_singleton] at ha
      rcases ha with rfl | rfl | rfl | h
      · norm_num
      · norm_num
      · norm_num
      · simp at h)

namespace Wcs

lemma sin_arctan2 (y x : ℝ) :
    Real.sin (arctan2 y x) = y / Real.sqrt (x ^ 2 + y ^ 2) := by
  have habs : Complex.abs ⟨x, y⟩ = Real.sqrt (x ^ 2 + y ^ 2) := by
    rw [Complex.abs_apply, Complex.normSq_mk]
    congr 1
    ring
  rw [arctan2, Complex.sin_arg, habs]

lemma cos_arctan2 (y x : ℝ) (h : ¬(x = 0 ∧ y = 0)) :
    Real.cos (arctan2 y x) = x / Real.sqrt (x ^ 2 + y ^ 2) := by
  have habs : Complex.abs ⟨x, y⟩ = Real.sqrt (x ^ 2 + y ^ 2) := by
    rw [Complex.abs_apply, Complex.normSq_mk]
    congr 1
    ring
  have hz : (⟨x, y⟩ : ℂ) ≠ 0 := by
    intro hc
    rw [Complex.ext_iff] at hc
    simp only [Complex.zero_re, Complex.zero_im] at hc
    exact h hc
  rw [arctan2, Complex.cos_arg hz, habs]

/-- The squares of the three spherical-rotation components sum to 1
(the rotation is an isometry of the unit sphere). -/
lemma rot_sq_identity (t d D : ℝ) :
    (-Real.cos t * Real.sin D) ^ 2 +
      (Real.sin t * Real.cos d - Real.cos t * Real.sin d * Real.cos D) ^ 2 +
      (Real.sin t * Real.sin d + Real.cos t * Real.cos d * Real.cos D) ^ 2 = 1 := by
  linear_combination (Real.sin t ^ 2 + Real.cos t ^ 2 * Real.cos D ^ 2) *
      Real.sin_sq_add_cos_sq d +
    Real.cos t ^ 2 * Real.sin_sq_add_cos_sq D + Real.sin_sq_add_cos_sq t

/-- Exact inverse of the linear stage (shared by the C1 and C2
developments). -/
lemma proj2pix_pix2proj_aux (hdr : Hdr ℝ) (x y : ℝ) (hc : cdet hdr ≠ 0) :
    proj2pix (pix2proj x y hdr).1 (pix2proj x y hdr).2 hdr = (some x, some y) := by
  have hc' : hdr.cd1_1 * hdr.cd2_2 - hdr.cd1_2 * hdr.cd2_1 ≠ 0 := hc
  simp only [pix2proj, proj2pix, cdet]
  rw [if_neg hc']
  simp only [Prod.mk.injEq, Option.some.injEq]
  constructor <;> field_simp <;> ring

end Wcs

set_option maxHeartbeats 1000000 in
/-- C1: for every TAN header with a non-singular CD matrix and every
pixel (x, y) mapped away from the projection-plane origin and whose
image lies away from a celestial pole, composing `pix2world` and then
`world2pix` returns the original pixel coordinates within 1e-9 (in
fact exactly, in real arithmetic). -/
theorem pix2world_world2pix_roundtrip (hdr : Wcs.Hdr ℝ) (x y : ℝ)
    (hTAN : (Wcs.parse_ctype hdr.ctype1).2 = "TAN")
    (hdet : Wcs.cdet hdr ≠ 0)
    (horig : Wcs.pix2proj x y hdr ≠ (0, 0))
    (hpole : ∀ lon lat, Wcs.pix2world x y hdr = Except.ok (lon, lat) →
      Real.cos (lat * (π / 180)) ≠ 0) :
    ∃ lon lat, Wcs.pix2world x y hdr = Except.ok (lon, lat) ∧
      ∃ x2 y2, Wcs.world2pix lon lat hdr = Except.ok (some x2, some y2) ∧
        |x2 - x| ≤ 1e-9 ∧ |y2 - y| ≤ 1e-9 := by
  have hπ : (0 : ℝ) < π := Real.pi_pos
  have hπ' : (π : ℝ) ≠ 0 := ne_of_gt hπ
  obtain ⟨u, hu⟩ : ∃ t, t = (Wcs.pix2proj x y hdr).1 := ⟨_, rfl⟩
  obtain ⟨v, hv⟩ : ∃ t, t = (Wcs.pix2proj x y hdr).2 := ⟨_, rfl⟩
  obtain ⟨ur, hur⟩ : ∃ t, t = u * (π / 180) := ⟨_, rfl⟩
  obtain ⟨vr, hvr⟩ : ∃ t, t = v * (π / 180) := ⟨_, rfl⟩
  have huv : ¬(ur = 0 ∧ vr = 0) := by
    rintro ⟨h1, h2⟩
    apply horig
    rw [hur] at h1
    rw [hvr] at h2
    have hu0 : (Wcs.pix2proj x y hdr).1 = 0 := by
      rw [← hu]
      rcases mul_eq_zero.mp h1 with h | h
      · exact h
      · exact absurd h (by positivity)
    have hv0 : (Wcs.pix2proj x y hdr).2 = 0 := by
      rw [← hv]
      rcases mul_eq_zero.mp h2 with h | h
      · exact h
      · exact absurd h (by positivity)
    exact Prod.ext hu0 hv0
  obtain ⟨ρ, hρdef⟩ : ∃ t, t = Real.sqrt (ur ^ 2 + vr ^ 2) := ⟨_, rfl⟩
  have hρpos : 0 < ρ := by
    rw [hρdef]
    apply Real.sqrt_pos.mpr
    rcases not_and_or.mp huv with h | h
    · have h2 : 0 < ur ^ 2 := lt_of_le_of_ne (sq_nonneg ur) (Ne.symm (pow_ne_zero 2 h))
      nlinarith [sq_nonneg vr]
    · have h2 : 0 < vr ^ 2 := lt_of_le_of_ne (sq_nonneg vr) (Ne.symm (pow_ne_zero 2 h))
      nlinarith [sq_nonneg ur]
  obtain ⟨φ, hφdef⟩ : ∃ t, t = Wcs.arctan2 ur (-vr) := ⟨_, rfl⟩
  obtain ⟨θ, hθdef⟩ : ∃ t, t = Real.arctan (1 / ρ) := ⟨_, rfl⟩
  have hA : Wcs.proj2natsph u v hdr = .ok (φ * (180 / π), θ * (180 / π)) := by
    simp only [Wcs.proj2natsph]
    rw [if_pos hTAN]
    rw [hφdef, hθdef, hρdef, hur, hvr]
  obtain ⟨δ, hδdef⟩ : ∃ t, t = hdr.crval2 * (π / 180) := ⟨_, rfl⟩
  obtain ⟨lonp, hlonpdef⟩ : ∃ t, t = hdr.crval1 * (π / 180) := ⟨_, rfl⟩
  obtain ⟨Δ, hΔdef⟩ : ∃ t, t = φ - π := ⟨_, rfl⟩
  obtain ⟨A, hAdef⟩ : ∃ t, t = -Real.cos θ * Real.sin Δ := ⟨_, rfl⟩
  obtain ⟨B, hBdef⟩ : ∃ t, t =
    Real.sin θ * Real.cos δ - Real.cos θ * Real.sin δ * Real.cos Δ := ⟨_, rfl⟩
  obtain ⟨S, hSdef⟩ : ∃ t, t =
    Real.sin θ * Real.sin δ + Real.cos θ * Real.cos δ * Real.cos Δ := ⟨_, rfl⟩
  have hB : Wcs.natsph2celsph (φ * (180 / π)) (θ * (180 / π)) hdr =
      .ok ((lonp + Wcs.arctan2 A B) * (180 / π), Real.arcsin S * (180 / π)) := by
    simp only [Wcs.natsph2celsph]
    rw [if_pos hTAN]
    have hconv1 : φ * (180 / π) * (π / 180) = φ := by field_simp
    have hconv2 : θ * (180 / π) * (π / 180) = θ := by field_simp
    have hpp : (180 : ℝ) * (π / 180) = π := by ring
    rw [hconv1, hconv2, hpp, ← hδdef, ← hlonpdef, ← hΔdef, ← hAdef, ← hBdef, ← hSdef]
  have hPW : Wcs.pix2world x y hdr =
      .ok ((lonp + Wcs.arctan2 A B) * (180 / π), Real.arcsin S * (180 / π)) := by
    simp only [Wcs.pix2world]
    rw [← hu, ← hv, hA]
    simp only [Except.bind]
    exact hB
  have hpole' : Real.cos (Real.arcsin S) ≠ 0 := by
    have h0 := hpole _ _ hPW
    have hconv3 : Real.arcsin S * (180 / π) * (π / 180) = Real.arcsin S := by field_simp
    rwa [hconv3] at h0
  have hid : A ^ 2 + B ^ 2 + S ^ 2 = 1 := by
    rw [hAdef, hBdef, hSdef]
    exact Wcs.rot_sq_identity θ δ Δ
  have hS1 : -1 ≤ S := by nlinarith [sq_nonneg A, sq_nonneg B]
  have hS2 : S ≤ 1 := by nlinarith [sq_nonneg A, sq_nonneg B]
  have hcosl : Real.cos (Real.arcsin S) = Real.sqrt (1 - S ^ 2) := Real.cos_arcsin S
  have h1S : 0 < 1 - S ^ 2 := by
    have h0 := hpole'
    rw [hcosl] at h0
    exact Real.sqrt_ne_zero'.mp h0
  have hABne : ¬(B = 0 ∧ A = 0) := by
    rintro ⟨hB0, hA0⟩
    rw [hB0, hA0] at hid
    nlinarith
  have hsqAB : Real.sqrt (B ^ 2 + A ^ 2) = Real.sqrt (1 - S ^ 2) := by
    congr 1
    linarith
  obtain ⟨γ, hγdef⟩ : ∃ t, t = Wcs.arctan2 A B := ⟨_, rfl⟩
  obtain ⟨C, hCdef⟩ : ∃ t, t = Real.sqrt (1 - S ^ 2) := ⟨_, rfl⟩
  have hCpos : 0 < C := by
    rw [hCdef]
    exact Real.sqrt_pos.mpr h1S
  have hsinγ : Real.sin γ = A / C := by
    rw [hγdef, Wcs.sin_arctan2, hsqAB, ← hCdef]
  have hcosγ : Real.cos γ = B / C := by
    rw [hγdef, Wcs.cos_arctan2 A B hABne, hsqAB, ← hCdef]
  have hsinl : Real.sin (Real.arcsin S) = S := Real.sin_arcsin hS1 hS2
  have hcosl' : Real.cos (Real.arcsin S) = C := by rw [hcosl, hCdef]
  have hA2 : -Real.cos (Real.arcsin S) * Real.sin γ = Real.cos θ * Real.sin Δ := by
    rw [hcosl', hsinγ]
    have hstep : -C * (A / C) = -A := by
      field_simp
      ring
    rw [hstep, hAdef]
    ring
  have hB2 : Real.sin (Real.arcsin S) * Real.cos δ -
      Real.cos (Real.arcsin S) * Real.sin δ * Real.cos γ = Real.cos θ * Real.cos Δ := by
    rw [hsinl, hcosl', hcosγ]
    have hstep : C * Real.sin δ * (B / C) = B * Real.sin δ := by
      field_simp
      ring
    rw [hstep, hSdef, hBdef]
    linear_combination (Real.cos θ * Real.cos Δ) * Real.sin_sq_add_cos_sq δ
  have hS2' : Real.sin (Real.arcsin S) * Real.sin δ +
      Real.cos (Real.arcsin S) * Real.cos δ * Real.cos γ = Real.sin θ := by
    rw [hsinl, hcosl', hcosγ]
    have hstep : C * Real.cos δ * (B / C) = B * Real.cos δ := by
      field_simp
      ring
    rw [hstep, hSdef, hBdef]
    linear_combination Real.sin θ * Real.sin_sq_add_cos_sq δ
  have hθr : Real.arcsin (Real.sin θ) = θ := by
    rw [hθdef]
    exact Real.arcsin_sin (le_of_lt (Real.neg_pi_div_two_lt_arctan _))
      (le_of_lt (Real.arctan_lt_pi_div_two _))
  have hC2 : Wcs.celsph2natsph ((lonp + γ) * (180 / π)) (Real.arcsin S * (180 / π)) hdr =
      .ok ((π + Wcs.arctan2 (Real.cos θ * Real.sin Δ) (Real.cos θ * Real.cos Δ)) * (180 / π),
        θ * (180 / π)) := by
    simp only [Wcs.celsph2natsph]
    rw [if_pos hTAN]
    have e1 : (lonp + γ) * (180 / π) * (π / 180) = lonp + γ := by field_simp
    have e2 : Real.arcsin S * (180 / π) * (π / 180) = Real.arcsin S := by field_simp
    have e3 : (180 : ℝ) * (π / 180) = π := by ring
    rw [e1, e2, e3, ← hδdef, ← hlonpdef]
    rw [show lonp + γ - lonp = γ from by ring]
    rw [hA2, hB2, hS2', hθr]
  obtain ⟨γ2, hγ2def⟩ : ∃ t, t =
    Wcs.arctan2 (Real.cos θ * Real.sin Δ) (Real.cos θ * Real.cos Δ) := ⟨_, rfl⟩
  rw [← hγ2def] at hC2
  have hcosθpos : 0 < Real.cos θ := by
    rw [hθdef, Real.cos_arctan]
    positivity
  have hγ2ne : ¬(Real.cos θ * Real.cos Δ = 0 ∧ Real.cos θ * Real.sin Δ = 0) := by
    rintro ⟨h1, h2⟩
    have hcosΔ : Real.cos Δ = 0 := (mul_eq_zero.mp h1).resolve_left (ne_of_gt hcosθpos)
    have hsinΔ : Real.sin Δ = 0 := (mul_eq_zero.mp h2).resolve_left (ne_of_gt hcosθpos)
    nlinarith [Real.sin_sq_add_cos_sq Δ]
  have hsqγ2 : Real.sqrt ((Real.cos θ * Real.cos Δ) ^ 2 + (Real.cos θ * Real.sin Δ) ^ 2) =
      Real.cos θ := by
    rw [show (Real.cos θ * Real.cos Δ) ^ 2 + (Real.cos θ * Real.sin Δ) ^ 2 =
        Real.cos θ ^ 2 * (Real.sin Δ ^ 2 + Real.cos Δ ^ 2) from by ring]
    rw [Real.sin_sq_add_cos_sq, mul_one, Real.sqrt_sq (le_of_lt hcosθpos)]
  have hsinγ2 : Real.sin γ2 = Real.sin Δ := by
    rw [hγ2def, Wcs.sin_arctan2, hsqγ2]
    rw [mul_comm, mul_div_assoc, div_self (ne_of_gt hcosθpos), mul_one]
  have hcosγ2 : Real.cos γ2 = Real.cos Δ := by
    rw [hγ2def, Wcs.cos_arctan2 _ _ hγ2ne, hsqγ2]
    rw [mul_comm, mul_div_assoc, div_self (ne_of_gt hcosθpos), mul_one]
  have hρ' : Real.sqrt ((-vr) ^ 2 + ur ^ 2) = ρ := by
    rw [hρdef]
    congr 1
    ring
  have hsinφ : Real.sin φ = ur / ρ := by
    rw [hφdef, Wcs.sin_arctan2, hρ']
  have hvruv : ¬((-vr) = 0 ∧ ur = 0) := by
    rintro ⟨h1, h2⟩
    exact huv ⟨h2, neg_eq_zero.mp h1⟩
  have hcosφ : Real.cos φ = -vr / ρ := by
    rw [hφdef, Wcs.cos_arctan2 _ _ hvruv, hρ']
  have htanθ : Real.tan θ = 1 / ρ := by
    rw [hθdef]
    exact Real.tan_arctan _
  have hD : Wcs.natsph2proj ((π + γ2) * (180 / π)) (θ * (180 / π)) hdr = .ok (u, v) := by
    simp only [Wcs.natsph2proj]
    rw [if_pos hTAN]
    have e1 : (π + γ2) * (180 / π) * (π / 180) = π + γ2 := by field_simp
    have e2 : θ * (180 / π) * (π / 180) = θ := by field_simp
    rw [e1, e2, htanθ]
    rw [show (1 : ℝ) / (1 / ρ) = ρ from one_div_one_div ρ]
    rw [show Real.sin (π + γ2) = -Real.sin γ2 from by
      rw [Real.sin_add]
      simp]
    rw [show Real.cos (π + γ2) = -Real.cos γ2 from by
      rw [Real.cos_add]
      simp]
    rw [hsinγ2, hcosγ2]
    rw [show Real.sin Δ = -Real.sin φ from by
      rw [hΔdef, Real.sin_sub]
      simp]
    rw [show Real.cos Δ = -Real.cos φ from by
      rw [hΔdef, Real.cos_sub]
      simp]
    rw [hsinφ, hcosφ]
    simp only [Except.ok.injEq, Prod.mk.injEq]
    rw [hur, hvr]
    constructor
    · field_simp
      ring
    · field_simp
      ring
  have hE : Wcs.world2pix ((lonp + γ) * (180 / π)) (Real.arcsin S * (180 / π)) hdr =
      .ok (some x, some y) := by
    simp only [Wcs.world2pix]
    rw [hC2]
    simp only [Except.bind]
    rw [hD]
    simp only [Except.bind]
    rw [hu, hv]
    exact congrArg Except.ok (Wcs.proj2pix_pix2proj_aux hdr x y hdet)
  refine ⟨(lonp + γ) * (180 / π), Real.arcsin S * (180 / π), ?_, x, y, hE, ?_, ?_⟩
  · rw [hPW, hγdef]
  · norm_num
  · norm_num

set_option maxHeartbeats 1000000 in
/-- Witness for C1 at the identity-CD TAN header and pixel (1, 0). -/
theorem pix2world_world2pix_roundtrip_witness :
    ∃ lon lat, Wcs.pix2world 1 0 Wcs.hdrTan = Except.ok (lon, lat) ∧
      ∃ x2 y2, Wcs.world2pix lon lat Wcs.hdrTan = Except.ok (some x2, some y2) ∧
        |x2 - 1| ≤ 1e-9 ∧ |y2 - 0| ≤ 1e-9 := by
  have hπ : (0 : ℝ) < π := Real.pi_pos
  have hπ' : (π : ℝ) ≠ 0 := ne_of_gt hπ
  have hT : (Wcs.parse_ctype Wcs.hdrTan.ctype1).2 = "TAN" := by
    show (Wcs.parse_ctype "RA---TAN").2 = "TAN"
    decide
  refine pix2world_world2pix_roundtrip Wcs.hdrTan 1 0 hT ?_ ?_ ?_
  · norm_num [Wcs.cdet, Wcs.hdrTan]
  · norm_num [Wcs.pix2proj, Wcs.hdrTan]
  · intro lon lat heq
    obtain ⟨u, hu⟩ : ∃ t, t = (Wcs.pix2proj 1 0 Wcs.hdrTan).1 := ⟨_, rfl⟩
    obtain ⟨v, hv⟩ : ∃ t, t = (Wcs.pix2proj 1 0 Wcs.hdrTan).2 := ⟨_, rfl⟩
    obtain ⟨ur, hur⟩ : ∃ t, t = u * (π / 180) := ⟨_, rfl⟩
    obtain ⟨vr, hvr⟩ : ∃ t, t = v * (π / 180) := ⟨_, rfl⟩
    obtain ⟨ρ, hρdef⟩ : ∃ t, t = Real.sqrt (ur ^ 2 + vr ^ 2) := ⟨_, rfl⟩
    obtain ⟨φ, hφdef⟩ : ∃ t, t = Wcs.arctan2 ur (-vr) := ⟨_, rfl⟩
    obtain ⟨θ, hθdef⟩ : ∃ t, t = Real.arctan (1 / ρ) := ⟨_, rfl⟩
    have hA : Wcs.proj2natsph u v Wcs.hdrTan = .ok (φ * (180 / π), θ * (180 / π)) := by
      simp only [Wcs.proj2natsph]
      rw [if_pos hT]
      rw [hφdef, hθdef, hρdef, hur, hvr]
    obtain ⟨δ, hδdef⟩ : ∃ t, t = Wcs.hdrTan.crval2 * (π / 180) := ⟨_, rfl⟩
    obtain ⟨lonp, hlonpdef⟩ : ∃ t, t = Wcs.hdrTan.crval1 * (π / 180) := ⟨_, rfl⟩
    obtain ⟨Δ, hΔdef⟩ : ∃ t, t = φ - π := ⟨_, rfl⟩
    obtain ⟨A, hAdef⟩ : ∃ t, t = -Real.cos θ * Real.sin Δ := ⟨_, rfl⟩
    obtain ⟨B, hBdef⟩ : ∃ t, t =
      Real.sin θ * Real.cos δ - Real.cos θ * Real.sin δ * Real.cos Δ := ⟨_, rfl⟩
    obtain ⟨S, hSdef⟩ : ∃ t, t =
      Real.sin θ * Real.sin δ + Real.cos θ * Real.cos δ * Real.cos Δ := ⟨_, rfl⟩
    have hB : Wcs.natsph2celsph (φ * (180 / π)) (θ * (180 / π)) Wcs.hdrTan =
        .ok ((lonp + Wcs.arctan2 A B) * (180 / π), Real.arcsin S * (180 / π)) := by
      simp only [Wcs.natsph2celsph]
      rw [if_pos hT]
      have hconv1 : φ * (180 / π) * (π / 180) = φ := by field_simp
      have hconv2 : θ * (180 / π) * (π / 180) = θ := by field_simp
      have hpp : (180 : ℝ) * (π / 180) = π := by ring
      rw [hconv1, hconv2, hpp, ← hδdef, ← hlonpdef, ← hΔdef, ← hAdef, ← hBdef, ← hSdef]
    have hPW : Wcs.pix2world 1 0 Wcs.hdrTan =
        .ok ((lonp + Wcs.arctan2 A B) * (180 / π), Real.arcsin S * (180 / π)) := by
      simp only [Wcs.pix2world]
      rw [← hu, ← hv, hA]
      simp only [Except.bind]
      exact hB
    rw [hPW] at heq
    have hpair := Except.ok.inj heq
    have hlat : lat = Real.arcsin S * (180 / π) :=
      (((Prod.mk.injEq _ _ _ _).mp hpair).2).symm
    rw [hlat]
    rw [show Real.arcsin S * (180 / π) * (π / 180) = Real.arcsin S from by field_simp]
    rw [Real.cos_arcsin]
    apply ne_of_gt
    apply Real.sqrt_pos.mpr
    have hδ0 : δ = 0 := by
      rw [hδdef]
      norm_num [Wcs.hdrTan]
    have hS' : S = Real.cos θ * Real.cos Δ := by
      rw [hSdef, hδ0]
      simp
    have hu1 : u = 1 := by
      rw [hu]
      norm_num [Wcs.pix2proj, Wcs.hdrTan]
    have hρpos : 0 < ρ := by
      rw [hρdef]
      apply Real.sqrt_pos.mpr
      have hur' : ur = π / 180 := by rw [hur, hu1, one_mul]
      have : 0 < ur ^ 2 := by
        rw [hur']
        positivity
      nlinarith [sq_nonneg vr]
    have hcosθpos : 0 < Real.cos θ := by
      rw [hθdef, Real.cos_arctan]
      positivity
    have hcosθlt : Real.cos θ < 1 := by
      rw [hθdef, Real.cos_arctan]
      have h1 : 1 < Real.sqrt (1 + (1 / ρ) ^ 2) := by
        apply (Real.lt_sqrt (by norm_num)).mpr
        have : 0 < (1 / ρ) ^ 2 := by positivity
        nlinarith
      calc 1 / Real.sqrt (1 + (1 / ρ) ^ 2) < 1 := by
            apply (div_lt_one (by positivity)).mpr h1
        _ ≤ 1 := le_refl 1
    rw [hS']
    have hd1 : Real.cos Δ ^ 2 ≤ 1 := by
      nlinarith [Real.cos_le_one Δ, Real.neg_one_le_cos Δ]
    have hd2 : Real.cos θ ^ 2 < 1 := by nlinarith [hcosθpos, hcosθlt]
    nlinarith [mul_le_mul_of_nonneg_left hd1 (sq_nonneg (Real.cos θ)), hd2]
